import Mathlib

/-!
# Verification of the PubMed fetcher pipeline

A shallow embedding of the repository's two Python modules (`get_paper.py`
and `cli.py`) together with proofs about the claims of the specification.

Modelling conventions:
* An XML element (as exposed by `xml.etree.ElementTree`) is a tag, an
  optional text payload (`None` in Python is `Option.none` here) and a list
  of child elements, in document order.
* `find`/`findall`/`findtext` are reproduced with ElementTree's semantics:
  `.//Tag` searches the proper descendants in document order; `findtext`
  returns the default when no element matches and the empty string when the
  matching element has no text.
* Python runtime errors that the extraction code can actually raise (a
  `TypeError` from `"@" in None`, an `IndexError` from `[][-1]`, the
  `ParseError` of `ET.fromstring` on malformed markup) are modelled with
  `Except String`.  A malformed input document is the `none` case of the
  `Option Xml` argument of `parse_paper_details`.
* File and console effects are modelled as data: a writer run returns the
  optional `(filename, content)` pair it wrote plus the printed lines, and
  `main` returns the trace of its requests, prints and writes.
-/

/-- An XML element: tag, optional text, children in document order. -/
inductive Xml where
  | elem (tag : String) (text : Option String) (children : List Xml)

def Xml.tag : Xml → String
  | .elem t _ _ => t

def Xml.text : Xml → Option String
  | .elem _ tx _ => tx

def Xml.children : Xml → List Xml
  | .elem _ _ cs => cs

mutual

/-- All proper descendants of an element, in document (preorder) order. -/
def Xml.descendants : Xml → List Xml
  | .elem _ _ cs => Xml.descList cs

def Xml.descList : List Xml → List Xml
  | [] => []
  | c :: cs => c :: Xml.descendants c ++ Xml.descList cs

end

/-- ElementTree `findall(".//tag")`: every proper descendant with this tag. -/
def findallDesc (x : Xml) (t : String) : List Xml :=
  (Xml.descendants x).filter (fun c => c.tag == t)

/-- ElementTree `find(".//tag")`: first proper descendant with this tag. -/
def findDesc (x : Xml) (t : String) : Option Xml :=
  (findallDesc x t).head?

/-- ElementTree `findtext(".//tag")` with default `None`: `none` when no
element matches, the element's text (`""` when the text is `None`) otherwise. -/
def findtextDesc (x : Xml) (t : String) : Option String :=
  (findDesc x t).map (fun e => e.text.getD "")

/-- ElementTree `find("tag")`: first direct child with this tag. -/
def findChild (x : Xml) (t : String) : Option Xml :=
  (x.children.filter (fun c => c.tag == t)).head?

/-- ElementTree `findtext("tag", default)`: the child's text (`""` when the
text is `None`) or the default when no child matches. -/
def findtextChild (x : Xml) (t dflt : String) : String :=
  match findChild x t with
  | some e => e.text.getD ""
  | none => dflt

/-- ElementTree `find(".//AffiliationInfo/Affiliation")`: for each
`AffiliationInfo` descendant in document order, its `Affiliation` children in
order; the first such element. -/
def findAffiliation (author : Xml) : Option Xml :=
  ((findallDesc author "AffiliationInfo").flatMap
    (fun ai => ai.children.filter (fun c => c.tag == "Affiliation"))).head?

/-- Occurrence of `needle` at the head of `hay`. -/
def isSubListAt : List Char → List Char → Bool
  | [], _ => true
  | _ :: _, [] => false
  | a :: as, b :: bs => a == b && isSubListAt as bs

/-- Occurrence of `needle` anywhere in `hay`. -/
def subListSearch (needle : List Char) : List Char → Bool
  | [] => isSubListAt needle []
  | b :: bs => isSubListAt needle (b :: bs) || subListSearch needle bs

/-- Python's `needle in hay` on strings. -/
def strContains (hay needle : String) : Bool :=
  subListSearch needle.toList hay.toList

/-- Worker for `pySplit`: splits on whitespace runs, keeping completed words. -/
def wsSplitGo : List Char → List Char → List String
  | [], cur => if cur.isEmpty then [] else [String.mk cur.reverse]
  | c :: rest, cur =>
    if c.isWhitespace then
      if cur.isEmpty then wsSplitGo rest []
      else String.mk cur.reverse :: wsSplitGo rest []
    else wsSplitGo rest (c :: cur)

/-- Python's `str.split()` with no separator: whitespace-delimited tokens,
with no empty tokens. -/
def pySplit (s : String) : List String :=
  wsSplitGo s.toList []

/-- Python's `str.strip()`: drop surrounding whitespace. -/
def pyStrip (s : String) : String :=
  String.mk (((s.toList.dropWhile Char.isWhitespace).reverse.dropWhile
    Char.isWhitespace).reverse)

/-- Python's `str.lower()` restricted to its ASCII behaviour; the keyword
matching of the source only involves ASCII text. -/
def pyLower (s : String) : String :=
  String.mk (s.toList.map Char.toLower)

/-! ## Record extraction (`get_paper.parse_paper_details`) -/

/-- A paper record: a Python dict as an insertion-ordered association list;
a value is `none` exactly when the Python value is `None`. -/
abbrev Record := List (String × Option String)

/-- Full author name, from line 66-68 of `get_paper.py`:
`f"{firstname} {lastname}".strip()` with both names looked up with
default `""`. -/
def authorFullName (author : Xml) : String :=
  pyStrip (findtextChild author "ForeName" "" ++ " " ++ findtextChild author "LastName" "")

/-- The company-keyword test from line 76 of `get_paper.py`:
`any(keyword in affiliation_text.lower() for keyword in [...])`. -/
def isCompanyText (t : String) : Bool :=
  ["company", "pharma", "biotech"].any (fun k => strContains (pyLower t) k)

/-- The four per-article accumulators of the author loop. -/
structure AuthorAcc where
  authors : List String
  nonAcademic : List String
  companyAff : List String
  emails : List String
deriving Repr, DecidableEq

/-- One iteration of the author loop, lines 65-78 of `get_paper.py`.
Raises (as `Except.error`) exactly where Python would: `"@" in None` is a
`TypeError`, and `[][-1]` would be an `IndexError`.  The source runs the
keyword `if` as a second statement after the email `if`; it is inlined here
into both branches of the email test, which is the same control flow (a
raise in the email test skips the keyword test). -/
def authorStep (acc : AuthorAcc) (author : Xml) : Except String AuthorAcc :=
  let fullname := authorFullName author
  let acc1 := { acc with authors := acc.authors ++ [fullname] }
  match findAffiliation author with
  | none => Except.ok acc1
  | some aff =>
    match aff.text with
    | none => Except.error "TypeError: argument of type NoneType is not iterable"
    | some t =>
      if strContains t "@" then
        match (pySplit t).getLast? with
        | none => Except.error "IndexError: list index out of range"
        | some tok =>
          let acc2 := { acc1 with emails := acc1.emails ++ [tok] }
          Except.ok (if isCompanyText t then
              { acc2 with nonAcademic := acc2.nonAcademic ++ [fullname],
                          companyAff := acc2.companyAff ++ [t] }
            else acc2)
      else
        Except.ok (if isCompanyText t then
            { acc1 with nonAcademic := acc1.nonAcademic ++ [fullname],
                        companyAff := acc1.companyAff ++ [t] }
          else acc1)

/-- Publication date extraction, lines 50-57 of `get_paper.py`. -/
def extractPubDate (article : Xml) : String :=
  match findDesc article "PubDate" with
  | some pd =>
    let year := findtextChild pd "Year" ""
    let month := findtextChild pd "Month" ""
    let day := findtextChild pd "Day" ""
    if year ≠ "" then year ++ "-" ++ month ++ "-" ++ day else "Unknown"
  | none => "Unknown"

/-- One record for one `PubmedArticle` node, lines 45-87 of `get_paper.py`. -/
def parse_article (article : Xml) : Except String Record :=
  match List.foldlM authorStep ⟨[], [], [], []⟩ (findallDesc article "Author") with
  | Except.error e => Except.error e
  | Except.ok acc =>
    Except.ok
      [("PubMedID", findtextDesc article "PMID"),
       ("Title", findtextDesc article "ArticleTitle"),
       ("Publication Date", some (extractPubDate article)),
       ("Authors", some (String.intercalate ", " acc.authors)),
       ("Non-academic Authors", some (String.intercalate ", " acc.nonAcademic)),
       ("Company Affiliations", some (String.intercalate "; " acc.companyAff)),
       ("Email", some (match acc.emails with
         | [] => "Not Available"
         | e :: _ => e))]

/-- Function `parse_paper_details`, lines 41-89 of `get_paper.py`.  The argument is
`none` when `ET.fromstring` raises on malformed markup, `some root`
otherwise. -/
def parse_paper_details (doc : Option Xml) : Except String (List Record) :=
  match doc with
  | none => Except.error "ParseError: malformed document"
  | some root => (findallDesc root "PubmedArticle").mapM parse_article

/-! ## Spec-side descriptions used to state the claims -/

/-- The author nodes the loop iterates over. -/
def authorNodes (article : Xml) : List Xml :=
  findallDesc article "Author"

/-- The affiliation text of an author, when the element is found: `none` when
no `AffiliationInfo/Affiliation` descendant exists, `some aff.text` otherwise
(so `some none` is an element whose text is Python `None`). -/
def presentAffText (author : Xml) : Option (Option String) :=
  (findAffiliation author).map Xml.text

/-- Spec-side list of non-academic author names over a list of author nodes. -/
def specNonAcademicL (l : List Xml) : List String :=
  l.filterMap (fun a => match presentAffText a with
    | some (some t) => if isCompanyText t then some (authorFullName a) else none
    | _ => none)

/-- Spec-side list of matched (verbatim) company affiliation texts. -/
def specCompanyAffsL (l : List Xml) : List String :=
  l.filterMap (fun a => match presentAffText a with
    | some (some t) => if isCompanyText t then some t else none
    | _ => none)

/-- Spec-side list of collected emails, in author order. -/
def specEmailsL (l : List Xml) : List String :=
  l.filterMap (fun a => match presentAffText a with
    | some (some t) => if strContains t "@" then (pySplit t).getLast? else none
    | _ => none)

/-- Number of `PubmedArticle` nodes contained anywhere in the document,
the root element included. -/
def countPubmedArticles (root : Xml) : Nat :=
  (root :: Xml.descendants root).countP (fun n => n.tag == "PubmedArticle")

/-- An author node on which the loop body raises: an affiliation element was
found but its text is Python `None`. -/
def affilTextMissing (author : Xml) : Bool :=
  match findAffiliation author with
  | some aff => aff.text.isNone
  | none => false

/-- A document on which extraction raises. -/
def extractionCrashes (root : Xml) : Bool :=
  (findallDesc root "PubmedArticle").any
    (fun art => (findallDesc art "Author").any affilTextMissing)

/-! ## Tabular writer (`get_paper.save_to_csv` and `cli.save_to_csv`)

Both writers use `csv.DictWriter` with the default dialect: delimiter `,`,
quote char `"`, line terminator `"\r\n"`, minimal quoting (a field is quoted
exactly when it contains the delimiter, the quote char or a line-terminator
character, with inner quotes doubled), `None` written as the empty string,
missing keys filled with the `None` restval, extra keys raising `ValueError`.
-/

/-- The fixed column list of `get_paper.save_to_csv`, line 100. -/
def fixedKeys : List String :=
  ["PubMedID", "Title", "Publication Date", "Authors",
   "Non-academic Authors", "Company Affiliations", "Email"]

/-- A field needs quoting when it contains the delimiter, the quote char or a
line-terminator character (csv QUOTE_MINIMAL). -/
def csvNeedsQuote (s : String) : Bool :=
  s.toList.any (fun c => c == ',' || c == '"' || c == '\r' || c == '\n')

/-- Double every quote character. -/
def escapeQuotes : List Char → List Char
  | [] => []
  | c :: rest => if c = '"' then '"' :: '"' :: escapeQuotes rest
                 else c :: escapeQuotes rest

/-- The characters written for one field. -/
def fieldChars (s : String) : List Char :=
  if csvNeedsQuote s then '"' :: (escapeQuotes s.toList ++ ['"']) else s.toList

/-- The characters of the comma-separated field sequence of one row. -/
def rowBodyChars : List String → List Char
  | [] => []
  | [f] => fieldChars f
  | f :: f2 :: fs => fieldChars f ++ ',' :: rowBodyChars (f2 :: fs)

/-- The characters written for one row, line terminator included. -/
def rowChars (fs : List String) : List Char :=
  rowBodyChars fs ++ ['\r', '\n']

/-- The concatenation of several rows. -/
def rowsChars : List (List String) → List Char
  | [] => []
  | r :: rs => rowChars r ++ rowsChars rs

/-- Method `DictWriter._dict_to_list`: raises `ValueError` when the dict has a key
outside the fieldnames, otherwise yields the values in fieldname order with
missing keys and `None` values becoming the empty string. -/
def dictWriterRow (fieldnames : List String) (rec : Record) : Except String (List String) :=
  if rec.all (fun kv => fieldnames.contains kv.1) then
    Except.ok (fieldnames.map (fun k => ((rec.lookup k).getD none).getD ""))
  else Except.error "ValueError: dict contains fields not in fieldnames"

/-- The data rows actually written by `writer.writerows`: rows are emitted one
by one and a `ValueError` stops the writing at the offending record. -/
def writtenRows (fieldnames : List String) : List Record → List Char
  | [] => []
  | r :: rs =>
    match dictWriterRow fieldnames r with
    | Except.error _ => []
    | Except.ok fields => rowChars fields ++ writtenRows fieldnames rs

/-- Whether `writer.writerows` completes without raising. -/
def rowsOk (fieldnames : List String) (rs : List Record) : Bool :=
  rs.all (fun r => match dictWriterRow fieldnames r with
    | Except.ok _ => true
    | Except.error _ => false)

/-- Result of one writer run: the file written (with its final content), the
printed lines, and whether the call returned normally. -/
structure SaveOutcome where
  file : Option (String × String)
  printed : List String
  normal : Bool
deriving Repr, DecidableEq

/-- Function `get_paper.save_to_csv`, lines 94-106: fixed column list. -/
def save_to_csv (parsed_data : List Record) (filename : String) : SaveOutcome :=
  if parsed_data.isEmpty then ⟨none, ["No data to save."], true⟩
  else
    let content := String.mk (rowChars fixedKeys ++ writtenRows fixedKeys parsed_data)
    if rowsOk fixedKeys parsed_data then
      ⟨some (filename, content), ["Data saved to " ++ filename], true⟩
    else ⟨some (filename, content), [], false⟩

/-- Function `cli.save_to_csv`, lines 3-24: columns from the first record's keys. -/
def cli_save_to_csv (parsed_data : List Record) (filename : String) : SaveOutcome :=
  if parsed_data.isEmpty then ⟨none, ["No data to save."], true⟩
  else
    let keys := (parsed_data.headD []).map Prod.fst
    let content := String.mk (rowChars keys ++ writtenRows keys parsed_data)
    if rowsOk keys parsed_data then
      ⟨some (filename, content), ["Data saved to " ++ filename], true⟩
    else ⟨some (filename, content), [], false⟩

/-! ## A standard delimited-text reader

Modelled from the spec: the repository has no reader of its own; the
round-trip property of the spec re-reads the file "with a standard
delimited-text reader", so the reader below follows `csv.reader` with the
default dialect (comma delimiter, double-quote quoting with doubling, a row
ends at an unquoted CR, LF or CR LF).
-/

/-- Field-scanner state: inside an unquoted field, inside a quoted section,
just after a quote character inside a quoted section (Python's
QUOTE_IN_QUOTED_FIELD). -/
inductive FState where
  | unquoted
  | quoted
  | quoteInQuoted
deriving Repr, DecidableEq

/-- Drop a line feed that follows a carriage return. -/
def dropLf : List Char → List Char
  | [] => []
  | c :: rest => if c = '\n' then rest else c :: rest

/-- Scan one field.  Returns the field, the unconsumed input, and whether the
field was ended by a delimiter (true) rather than by a row end (false). -/
def parseFieldGo : FState → List Char → List Char → String × List Char × Bool
  | .unquoted, acc, [] => (String.mk acc, [], false)
  | .quoted, acc, [] => (String.mk acc, [], false)
  | .quoteInQuoted, acc, [] => (String.mk acc, [], false)
  | .unquoted, acc, c :: rest =>
    if c = ',' then (String.mk acc, rest, true)
    else if c = '\r' then (String.mk acc, dropLf rest, false)
    else if c = '\n' then (String.mk acc, rest, false)
    else parseFieldGo .unquoted (acc ++ [c]) rest
  | .quoted, acc, c :: rest =>
    if c = '"' then parseFieldGo .quoteInQuoted acc rest
    else parseFieldGo .quoted (acc ++ [c]) rest
  | .quoteInQuoted, acc, c :: rest =>
    if c = '"' then parseFieldGo .quoted (acc ++ ['"']) rest
    else if c = ',' then (String.mk acc, rest, true)
    else if c = '\r' then (String.mk acc, dropLf rest, false)
    else if c = '\n' then (String.mk acc, rest, false)
    else parseFieldGo .unquoted (acc ++ [c]) rest

/-- Scan one field from the start: a leading quote opens a quoted section. -/
def parseField (l : List Char) : String × List Char × Bool :=
  match l with
  | [] => (String.mk [], [], false)
  | c :: rest =>
    if c = '"' then parseFieldGo .quoted [] rest
    else parseFieldGo .unquoted [] (c :: rest)

/-- Scan the fields of one row; the fuel bounds the number of fields. -/
def parseRowGo : Nat → List Char → List String × List Char
  | 0, l => ([], l)
  | fuel + 1, l =>
    match parseField l with
    | (f, rest, true) =>
      let pr := parseRowGo fuel rest
      (f :: pr.1, pr.2)
    | (f, rest, false) => ([f], rest)

/-- Scan one row. -/
def parseRow (l : List Char) : List String × List Char :=
  parseRowGo (l.length + 1) l

/-- Scan all rows; the fuel bounds the number of rows. -/
def parseRowsGo : Nat → List Char → List (List String)
  | 0, _ => []
  | fuel + 1, l =>
    if l.isEmpty then []
    else (parseRow l).1 :: parseRowsGo fuel (parseRow l).2

/-- Read a whole delimited-text file into its rows of fields. -/
def csvParse (s : String) : List (List String) :=
  parseRowsGo (s.toList.length + 1) s.toList

/-! ## The command-line pipeline (`get_paper.main`) -/

/-- Observable events of one pipeline run. -/
inductive Event where
  | print (msg : String)
  | searchRequest (query : String) (retmax : Nat)
  | fetchRequest (ids : List String)
  | fileWrite (filename : String) (content : String)
deriving Repr, DecidableEq

/-- Function `main`, lines 110-128 of `get_paper.py`, with the two network calls as
oracles: `searchResult` is what `fetch_pubmed_data` returns (`none` after a
caught transport error), `fetchText` is what `fetch_paper_details` returns,
and `fetchParsed` is what `ET.fromstring` yields on that text (`none` when it
raises).  Returns the event trace and whether the run exited normally. -/
def main_run (query filename : String) (number : Nat)
    (searchResult : Option (List String)) (fetchText : Option String)
    (fetchParsed : Option Xml) : List Event × Bool :=
  let ev0 := [Event.print ("Fetching papers for query: " ++ query),
              Event.searchRequest query number]
  match searchResult with
  | none => (ev0 ++ [Event.print "No papers found for the query."], true)
  | some ids =>
    if ids.isEmpty then (ev0 ++ [Event.print "No papers found for the query."], true)
    else
      let ev1 := ev0 ++ [Event.print ("Found " ++ toString ids.length ++ " papers."),
                         Event.fetchRequest ids]
      match fetchText with
      | none => (ev1 ++ [Event.print "Failed to fetch paper details."], true)
      | some txt =>
        if txt = "" then (ev1 ++ [Event.print "Failed to fetch paper details."], true)
        else
          match parse_paper_details fetchParsed with
          | Except.error _ => (ev1, false)
          | Except.ok recs =>
            let s := save_to_csv recs filename
            match s.file with
            | none => (ev1 ++ s.printed.map Event.print, s.normal)
            | some fc => (ev1 ++ [Event.fileWrite fc.1 fc.2] ++ s.printed.map Event.print, s.normal)

/-! ## Helper lemmas -/

theorem subListSearch_singleton (c : Char) (l : List Char)
    (h : subListSearch [c] l = true) : c ∈ l := by
  induction l with
  | nil => simp [subListSearch, isSubListAt] at h
  | cons b bs ih =>
    rw [subListSearch] at h
    rcases Bool.or_eq_true_iff.mp h with h1 | h1
    · simp [isSubListAt] at h1
      exact h1 ▸ List.mem_cons_self b bs
    · exact List.mem_cons_of_mem b (ih h1)

theorem wsSplitGo_ne_nil : ∀ (l : List Char) (cur : List Char),
    ((∃ c ∈ l, c.isWhitespace = false) ∨ cur ≠ []) → wsSplitGo l cur ≠ [] := by
  intro l
  induction l with
  | nil =>
    intro cur h
    rcases h with ⟨c, hc, _⟩ | h
    · exact absurd hc (List.not_mem_nil c)
    · simp [wsSplitGo, List.isEmpty_iff, h]
  | cons c rest ih =>
    intro cur h
    rw [wsSplitGo]
    by_cases hws : c.isWhitespace
    · rw [if_pos hws]
      by_cases hcur : cur.isEmpty
      · rw [if_pos hcur]
        apply ih
        left
        rcases h with ⟨d, hd, hdws⟩ | hne
        · rcases List.mem_cons.mp hd with rfl | hd
          · exact absurd hws (by simp [hdws])
          · exact ⟨d, hd, hdws⟩
        · exact absurd (List.isEmpty_iff.mp hcur) hne
      · rw [if_neg hcur]
        simp
    · rw [if_neg hws]
      exact ih (c :: cur) (Or.inr (by simp))

theorem pySplit_ne_nil (t : String) (h : strContains t "@" = true) :
    pySplit t ≠ [] := by
  have hm : '@' ∈ t.toList := subListSearch_singleton '@' t.toList h
  exact wsSplitGo_ne_nil t.toList [] (Or.inl ⟨'@', hm, by decide⟩)

theorem getLast?_of_ne_nil {α : Type} [Inhabited α] (l : List α) (h : l ≠ []) :
    l.getLast? = some (l.getLastD default) := by
  cases l with
  | nil => simp at h
  | cons a as => simp [List.getLastD_eq_getLast?, List.getLast?_cons]

/-- The per-author deltas of the loop body, described from the found
affiliation text. -/
theorem authorStep_ok (acc : AuthorAcc) (a : Xml) (acc' : AuthorAcc)
    (h : authorStep acc a = Except.ok acc') :
    acc'.authors = acc.authors ++ [authorFullName a] ∧
    acc'.nonAcademic = acc.nonAcademic ++
      (match presentAffText a with
        | some (some t) => if isCompanyText t then [authorFullName a] else []
        | _ => []) ∧
    acc'.companyAff = acc.companyAff ++
      (match presentAffText a with
        | some (some t) => if isCompanyText t then [t] else []
        | _ => ([] : List String)) ∧
    acc'.emails = acc.emails ++
      (match presentAffText a with
        | some (some t) =>
          if strContains t "@" then ((pySplit t).getLast?).toList else []
        | _ => ([] : List String)) := by
  rw [authorStep] at h
  rcases haff : findAffiliation a with _ | aff
  · simp only [haff] at h
    have hacc := Except.ok.inj h
    subst hacc
    simp [presentAffText, haff]
  · simp only [haff] at h
    rcases htext : aff.text with _ | t
    · simp only [htext] at h
      exact absurd h (by simp)
    · simp only [htext] at h
      have hp : presentAffText a = some (some t) := by
        simp [presentAffText, haff, htext]
      rw [hp]
      by_cases hat : strContains t "@"
      · rw [if_pos hat] at h
        rcases hlast : (pySplit t).getLast? with _ | tok
        · simp only [hlast] at h
          exact absurd h (by simp)
        · simp only [hlast] at h
          by_cases hco : isCompanyText t
          · rw [if_pos hco] at h
            have hacc := Except.ok.inj h
            subst hacc
            simp [hat, hco, hlast]
          · rw [if_neg hco] at h
            have hacc := Except.ok.inj h
            subst hacc
            simp [hat, hco, hlast]
      · rw [if_neg hat] at h
        by_cases hco : isCompanyText t
        · rw [if_pos hco] at h
          have hacc := Except.ok.inj h
          subst hacc
          simp [hat, hco]
        · rw [if_neg hco] at h
          have hacc := Except.ok.inj h
          subst hacc
          simp [hat, hco]

theorem specNonAcademicL_cons (a : Xml) (l : List Xml) :
    specNonAcademicL (a :: l) =
      (match presentAffText a with
        | some (some t) => if isCompanyText t then [authorFullName a] else []
        | _ => []) ++ specNonAcademicL l := by
  rcases hp : presentAffText a with _ | ⟨_ | t⟩
  · simp [specNonAcademicL, List.filterMap_cons, hp]
  · simp [specNonAcademicL, List.filterMap_cons, hp]
  · by_cases hco : isCompanyText t <;>
      simp [specNonAcademicL, List.filterMap_cons, hp, hco]

theorem specCompanyAffsL_cons (a : Xml) (l : List Xml) :
    specCompanyAffsL (a :: l) =
      (match presentAffText a with
        | some (some t) => if isCompanyText t then [t] else []
        | _ => ([] : List String)) ++ specCompanyAffsL l := by
  rcases hp : presentAffText a with _ | ⟨_ | t⟩
  · simp [specCompanyAffsL, List.filterMap_cons, hp]
  · simp [specCompanyAffsL, List.filterMap_cons, hp]
  · by_cases hco : isCompanyText t <;>
      simp [specCompanyAffsL, List.filterMap_cons, hp, hco]

theorem specEmailsL_cons (a : Xml) (l : List Xml) :
    specEmailsL (a :: l) =
      (match presentAffText a with
        | some (some t) =>
          if strContains t "@" then ((pySplit t).getLast?).toList else []
        | _ => ([] : List String)) ++ specEmailsL l := by
  rcases hp : presentAffText a with _ | ⟨_ | t⟩
  · simp [specEmailsL, List.filterMap_cons, hp]
  · simp [specEmailsL, List.filterMap_cons, hp]
  · by_cases hat : strContains t "@"
    · rcases hlast : (pySplit t).getLast? with _ | tok <;>
        simp [specEmailsL, List.filterMap_cons, hp, hat, hlast]
    · simp [specEmailsL, List.filterMap_cons, hp, hat]

/-- The author loop, fully characterised: a successful fold appends the
name of every author, the spec-side non-academic/affiliation/email lists. -/
theorem foldAuthors_ok : ∀ (l : List Xml) (acc acc' : AuthorAcc),
    List.foldlM authorStep acc l = Except.ok acc' →
    acc'.authors = acc.authors ++ l.map authorFullName ∧
    acc'.nonAcademic = acc.nonAcademic ++ specNonAcademicL l ∧
    acc'.companyAff = acc.companyAff ++ specCompanyAffsL l ∧
    acc'.emails = acc.emails ++ specEmailsL l := by
  intro l
  induction l with
  | nil =>
    intro acc acc' h
    have hacc : acc = acc' := Except.ok.inj h
    subst hacc
    simp [specNonAcademicL, specCompanyAffsL, specEmailsL]
  | cons a l' ih =>
    intro acc acc' h
    rw [List.foldlM_cons] at h
    cases hstep : authorStep acc a with
    | error e =>
      rw [hstep] at h
      have h2 : (Except.error e : Except String AuthorAcc) = Except.ok acc' := h
      exact absurd h2 (by simp)
    | ok acc1 =>
      rw [hstep] at h
      have h2 : List.foldlM authorStep acc1 l' = Except.ok acc' := h
      obtain ⟨ha1, hn1, hc1, he1⟩ := authorStep_ok acc a acc1 hstep
      obtain ⟨ha2, hn2, hc2, he2⟩ := ih acc1 acc' h2
      refine ⟨?_, ?_, ?_, ?_⟩
      · rw [ha2, ha1, List.map_cons, List.append_assoc]
        simp
      · rw [hn2, hn1, specNonAcademicL_cons, List.append_assoc]
      · rw [hc2, hc1, specCompanyAffsL_cons, List.append_assoc]
      · rw [he2, he1, specEmailsL_cons, List.append_assoc]

/-- A successful `mapM` has one output per input, in order. -/
theorem mapM_ok_elem {α β : Type} (f : α → Except String β) :
    ∀ (l : List α) (res : List β), l.mapM f = Except.ok res →
      res.length = l.length ∧
      ∀ i (hi : i < l.length) (hj : i < res.length),
        f (l.get ⟨i, hi⟩) = Except.ok (res.get ⟨i, hj⟩) := by
  intro l
  induction l with
  | nil =>
    intro res h
    have : ([] : List β) = res := Except.ok.inj h
    subst this
    exact ⟨rfl, fun i hi _ => absurd hi (by simp)⟩
  | cons a l' ih =>
    intro res h
    rw [List.mapM_cons] at h
    cases hfa : f a with
    | error e =>
      rw [hfa] at h
      have h2 : (Except.error e : Except String (List β)) = Except.ok res := h
      exact absurd h2 (by simp)
    | ok b =>
      rw [hfa] at h
      cases hrest : l'.mapM f with
      | error e =>
        rw [hrest] at h
        have h2 : (Except.error e : Except String (List β)) = Except.ok res := h
        exact absurd h2 (by simp)
      | ok bs =>
        rw [hrest] at h
        have h2 : (b :: bs : List β) = res := Except.ok.inj h
        subst h2
        obtain ⟨hlen, helem⟩ := ih bs hrest
        refine ⟨by simp [hlen], ?_⟩
        intro i hi hj
        cases i with
        | zero => exact hfa
        | succ j => exact helem j (by simpa using hi) (by simpa using hj)

/-- A `mapM` succeeds exactly when every element succeeds. -/
theorem mapM_ok_iff {α β : Type} (f : α → Except String β) :
    ∀ (l : List α), (∃ res, l.mapM f = Except.ok res) ↔
      ∀ a ∈ l, ∃ b, f a = Except.ok b := by
  intro l
  induction l with
  | nil =>
    refine ⟨fun _ a ha => absurd ha (List.not_mem_nil a), fun _ => ⟨[], rfl⟩⟩
  | cons a l' ih =>
    constructor
    · rintro ⟨res, h⟩ x hx
      rw [List.mapM_cons] at h
      cases hfa : f a with
      | error e =>
        rw [hfa] at h
        have h2 : (Except.error e : Except String (List β)) = Except.ok res := h
        exact absurd h2 (by simp)
      | ok b =>
        rw [hfa] at h
        cases hrest : l'.mapM f with
        | error e =>
          rw [hrest] at h
          have h2 : (Except.error e : Except String (List β)) = Except.ok res := h
          exact absurd h2 (by simp)
        | ok bs =>
          rcases List.mem_cons.mp hx with rfl | hx
          · exact ⟨b, hfa⟩
          · exact (ih.mp ⟨bs, hrest⟩) x hx
    · intro hall
      obtain ⟨b, hb⟩ := hall a (List.mem_cons_self a l')
      obtain ⟨bs, hbs⟩ := ih.mpr (fun x hx => hall x (List.mem_cons_of_mem a hx))
      refine ⟨b :: bs, ?_⟩
      rw [List.mapM_cons, hb, hbs]
      rfl

/-- Shape of a successful `parse_article` result. -/
theorem parse_article_ok_shape (article : Xml) (rec : Record)
    (h : parse_article article = Except.ok rec) :
    ∃ acc, List.foldlM authorStep ⟨[], [], [], []⟩ (findallDesc article "Author") =
        Except.ok acc ∧
      rec = [("PubMedID", findtextDesc article "PMID"),
             ("Title", findtextDesc article "ArticleTitle"),
             ("Publication Date", some (extractPubDate article)),
             ("Authors", some (String.intercalate ", " acc.authors)),
             ("Non-academic Authors", some (String.intercalate ", " acc.nonAcademic)),
             ("Company Affiliations", some (String.intercalate "; " acc.companyAff)),
             ("Email", some (match acc.emails with
               | [] => "Not Available"
               | e :: _ => e))] := by
  rw [parse_article] at h
  cases hfold : List.foldlM authorStep ⟨[], [], [], []⟩ (findallDesc article "Author") with
  | error e =>
    rw [hfold] at h
    exact absurd h (by simp)
  | ok acc =>
    rw [hfold] at h
    exact ⟨acc, rfl, (Except.ok.inj h).symm⟩

/-- Every successful record carries exactly the seven fixed keys in order. -/
theorem parse_article_keys (article : Xml) (rec : Record)
    (h : parse_article article = Except.ok rec) :
    rec.map Prod.fst = fixedKeys := by
  obtain ⟨acc, _, hrec⟩ := parse_article_ok_shape article rec h
  subst hrec
  rfl

/-- The loop body succeeds exactly when the found affiliation has text. -/
theorem authorStep_ok_iff (acc : AuthorAcc) (a : Xml) :
    (∃ acc', authorStep acc a = Except.ok acc') ↔ affilTextMissing a = false := by
  constructor
  · rintro ⟨acc', h⟩
    rw [authorStep] at h
    rcases haff : findAffiliation a with _ | aff
    · simp [affilTextMissing, haff]
    · simp only [haff] at h
      rcases htext : aff.text with _ | t
      · simp only [htext] at h
        exact absurd h (by simp)
      · simp [affilTextMissing, haff, htext]
  · intro hmiss
    rcases haff : findAffiliation a with _ | aff
    · exact ⟨_, by rw [authorStep]; simp only [haff]; rfl⟩
    · rcases htext : aff.text with _ | t
      · exfalso
        simp [affilTextMissing, haff, htext] at hmiss
      · by_cases hat : strContains t "@"
        · have hl := getLast?_of_ne_nil (pySplit t) (pySplit_ne_nil t hat)
          exact ⟨_, by rw [authorStep]; simp only [haff, htext, if_pos hat, hl]; rfl⟩
        · exact ⟨_, by rw [authorStep]; simp only [haff, htext, if_neg hat]; rfl⟩

/-- The author fold succeeds exactly when every author's found affiliation
has text. -/
theorem foldAuthors_ok_iff : ∀ (l : List Xml) (acc : AuthorAcc),
    (∃ acc', List.foldlM authorStep acc l = Except.ok acc') ↔
      ∀ a ∈ l, affilTextMissing a = false := by
  intro l
  induction l with
  | nil =>
    intro acc
    exact ⟨fun _ a ha => absurd ha (List.not_mem_nil a), fun _ => ⟨acc, rfl⟩⟩
  | cons a l' ih =>
    intro acc
    constructor
    · rintro ⟨acc', h⟩ x hx
      rw [List.foldlM_cons] at h
      cases hstep : authorStep acc a with
      | error e =>
        rw [hstep] at h
        have h2 : (Except.error e : Except String AuthorAcc) = Except.ok acc' := h
        exact absurd h2 (by simp)
      | ok acc1 =>
        rw [hstep] at h
        have h2 : List.foldlM authorStep acc1 l' = Except.ok acc' := h
        rcases List.mem_cons.mp hx with rfl | hx
        · exact (authorStep_ok_iff acc x).mp ⟨acc1, hstep⟩
        · exact (ih acc1).mp ⟨acc', h2⟩ x hx
    · intro hall
      obtain ⟨acc1, h1⟩ := (authorStep_ok_iff acc a).mpr (hall a (List.mem_cons_self a l'))
      obtain ⟨acc', h2⟩ := (ih acc1).mpr (fun x hx => hall x (List.mem_cons_of_mem a hx))
      refine ⟨acc', ?_⟩
      rw [List.foldlM_cons, h1]
      exact h2

/-- Extraction of one article succeeds exactly when no author node makes it raise. -/
theorem parse_article_ok_iff (article : Xml) :
    (∃ rec, parse_article article = Except.ok rec) ↔
      ∀ a ∈ findallDesc article "Author", affilTextMissing a = false := by
  rw [← foldAuthors_ok_iff (findallDesc article "Author") ⟨[], [], [], []⟩]
  constructor
  · rintro ⟨rec, h⟩
    obtain ⟨acc, hfold, _⟩ := parse_article_ok_shape article rec h
    exact ⟨acc, hfold⟩
  · rintro ⟨acc, hfold⟩
    cases h2 : parse_article article with
    | error e =>
      rw [parse_article] at h2
      simp only [hfold] at h2
      exact absurd h2 (by simp)
    | ok rec => exact ⟨rec, rfl⟩

/-! ## Claims C1 - C6 -/

/-- C1: for an author whose affiliation text is present, the loop appends the
last whitespace-delimited token of the text to the email list when the text
contains an `@` character; and when the lower-cased text contains one of
"company", "pharma", "biotech", it appends the author's full name to the
non-academic list and the raw affiliation text verbatim to the
company-affiliations list. -/
theorem c1_affiliation_heuristic (acc : AuthorAcc) (author : Xml) (aff : Xml)
    (t : String) (haff : findAffiliation author = some aff)
    (htext : aff.text = some t) :
    ∃ acc', authorStep acc author = Except.ok acc' ∧
      acc'.emails = acc.emails ++
        (if strContains t "@" then [(pySplit t).getLastD ""] else []) ∧
      acc'.nonAcademic = acc.nonAcademic ++
        (if isCompanyText t then [authorFullName author] else []) ∧
      acc'.companyAff = acc.companyAff ++
        (if isCompanyText t then [t] else []) ∧
      acc'.authors = acc.authors ++ [authorFullName author] := by
  by_cases hat : strContains t "@"
  · have hl := getLast?_of_ne_nil (pySplit t) (pySplit_ne_nil t hat)
    by_cases hco : isCompanyText t
    · refine ⟨_, by rw [authorStep]; simp only [haff, htext, if_pos hat, hl]; rfl, ?_⟩
      simp [if_pos hat, if_pos hco, hco]
    · refine ⟨_, by rw [authorStep]; simp only [haff, htext, if_pos hat, hl]; rfl, ?_⟩
      simp [if_pos hat, if_neg hco, hco]
  · by_cases hco : isCompanyText t
    · refine ⟨_, by rw [authorStep]; simp only [haff, htext, if_neg hat]; rfl, ?_⟩
      simp [if_neg hat, if_pos hco, hco, hat]
    · refine ⟨_, by rw [authorStep]; simp only [haff, htext, if_neg hat]; rfl, ?_⟩
      simp [if_neg hat, if_neg hco, hco, hat]

/-- The Jane Doe author of the specification's worked example. -/
def janeAuthor : Xml :=
  Xml.elem "Author" none
    [Xml.elem "LastName" (some "Doe") [],
     Xml.elem "ForeName" (some "Jane") [],
     Xml.elem "AffiliationInfo" none
       [Xml.elem "Affiliation"
         (some "Jane Doe, Acme Biotech Inc, jane@acme.com") []]]

/-- C1 witness: on the worked example the author is classified non-academic,
the affiliation is recorded verbatim and the extracted email is
`jane@acme.com`. -/
theorem c1_affiliation_heuristic_witness :
    (∃ acc', authorStep ⟨[], [], [], []⟩ janeAuthor = Except.ok acc') ∧
    authorStep ⟨[], [], [], []⟩ janeAuthor =
      Except.ok ⟨["Jane Doe"], ["Jane Doe"],
        ["Jane Doe, Acme Biotech Inc, jane@acme.com"], ["jane@acme.com"]⟩ :=
  ⟨(c1_affiliation_heuristic ⟨[], [], [], []⟩ janeAuthor
      (Xml.elem "Affiliation" (some "Jane Doe, Acme Biotech Inc, jane@acme.com") [])
      "Jane Doe, Acme Biotech Inc, jane@acme.com" rfl rfl).imp
      (fun _ h => h.1),
   by rfl⟩

/-- C2: the Publication Date field is `YEAR-MONTH-DAY` from the first
`PubDate` descendant's direct sub-fields when a non-empty year is found
(month and day default to the empty string), and the sentinel `"Unknown"`
when the `PubDate` node is absent or no year text is found. -/
theorem c2_publication_date (article : Xml) :
    (findDesc article "PubDate" = none → extractPubDate article = "Unknown") ∧
    (∀ pd, findDesc article "PubDate" = some pd →
      (findtextChild pd "Year" "" = "" → extractPubDate article = "Unknown") ∧
      (findtextChild pd "Year" "" ≠ "" →
        extractPubDate article =
          findtextChild pd "Year" "" ++ "-" ++ findtextChild pd "Month" "" ++ "-" ++
            findtextChild pd "Day" "")) ∧
    (∀ rec, parse_article article = Except.ok rec →
      rec.lookup "Publication Date" = some (some (extractPubDate article))) := by
  refine ⟨?_, ?_, ?_⟩
  · intro h
    rw [extractPubDate]
    simp only [h]
  · intro pd hpd
    constructor
    · intro hy
      rw [extractPubDate]
      simp only [hpd, hy]
      simp
    · intro hy
      rw [extractPubDate]
      simp only [hpd]
      rw [if_pos hy]
  · intro rec h
    obtain ⟨acc, _, hrec⟩ := parse_article_ok_shape article rec h
    subst hrec
    rfl

/-- A one-article document whose year is 2020 and which has no month/day. -/
def art2020 : Xml :=
  Xml.elem "PubmedArticle" none
    [Xml.elem "PubDate" none [Xml.elem "Year" (some "2020") []]]

/-- A one-article document with no `PubDate` at all. -/
def artNoDate : Xml :=
  Xml.elem "PubmedArticle" none []

/-- C2 witness: Year=2020 with no Month/Day yields exactly `2020--`; an
article without a year yields `Unknown`. -/
theorem c2_publication_date_witness :
    extractPubDate art2020 = "2020--" ∧ extractPubDate artNoDate = "Unknown" := by
  constructor
  · have h := ((c2_publication_date art2020).2.1
      (Xml.elem "PubDate" none [Xml.elem "Year" (some "2020") []]) rfl).2 (by decide)
    exact h.trans rfl
  · exact (c2_publication_date artNoDate).1 rfl

/-- C3 counterexample: a well-formed document that itself is a single
`PubmedArticle` node contains one article node, yet extraction returns zero
records, because the code iterates `findall(".//PubmedArticle")`, which only
sees proper descendants of the root. -/
theorem c3_counterexample :
    countPubmedArticles (Xml.elem "PubmedArticle" none []) = 1 ∧
    parse_paper_details (some (Xml.elem "PubmedArticle" none [])) =
      Except.ok [] :=
  ⟨rfl, rfl⟩

/-- C3 amended: whenever extraction completes without raising, it returns
exactly one record per `PubmedArticle` node that is a proper descendant of
the root, in document order, each with the full fixed key set. -/
theorem c3_records_per_article (root : Xml) (recs : List Record)
    (h : parse_paper_details (some root) = Except.ok recs) :
    recs.length = (findallDesc root "PubmedArticle").length ∧
    (∀ i (hi : i < (findallDesc root "PubmedArticle").length)
       (hj : i < recs.length),
      parse_article ((findallDesc root "PubmedArticle").get ⟨i, hi⟩) =
        Except.ok (recs.get ⟨i, hj⟩)) ∧
    (∀ rec ∈ recs, rec.map Prod.fst = fixedKeys) := by
  rw [parse_paper_details] at h
  obtain ⟨hlen, helem⟩ := mapM_ok_elem parse_article _ recs h
  refine ⟨hlen, helem, ?_⟩
  intro rec hrec
  obtain ⟨⟨i, hj⟩, hget⟩ := List.mem_iff_get.mp hrec
  have hi : i < (findallDesc root "PubmedArticle").length := by
    rw [← hlen]; exact hj
  exact parse_article_keys _ rec (hget ▸ helem i hi hj)

/-- C3 witness: a root with one article descendant yields one record. -/
theorem c3_records_per_article_witness :
    ([[("PubMedID", (none : Option String)), ("Title", none),
       ("Publication Date", some "Unknown"), ("Authors", some ""),
       ("Non-academic Authors", some ""), ("Company Affiliations", some ""),
       ("Email", some "Not Available")]] : List Record).length =
      (findallDesc (Xml.elem "PubmedArticleSet" none
        [Xml.elem "PubmedArticle" none []]) "PubmedArticle").length :=
  (c3_records_per_article
    (Xml.elem "PubmedArticleSet" none [Xml.elem "PubmedArticle" none []])
    [[("PubMedID", none), ("Title", none),
      ("Publication Date", some "Unknown"), ("Authors", some ""),
      ("Non-academic Authors", some ""), ("Company Affiliations", some ""),
      ("Email", some "Not Available")]] rfl).1

/-- C4 counterexample: a well-formed document in which an author has an
`Affiliation` element with no text makes the extraction raise the `TypeError`
of `"@" in None`, so well-formedness of the markup does not guarantee the
absence of errors. -/
theorem c4_counterexample :
    parse_paper_details (some (Xml.elem "PubmedArticleSet" none
      [Xml.elem "PubmedArticle" none
        [Xml.elem "Author" none
          [Xml.elem "AffiliationInfo" none
            [Xml.elem "Affiliation" none []]]]])) =
      Except.error "TypeError: argument of type NoneType is not iterable" :=
  rfl

/-- C4 amended: a malformed document is a fatal parse failure for the whole
batch, and a well-formed document is extracted without error if and only if
no author carries an affiliation element whose text is absent. -/
theorem c4_error_conditions :
    parse_paper_details none = Except.error "ParseError: malformed document" ∧
    ∀ root : Xml,
      (∃ recs, parse_paper_details (some root) = Except.ok recs) ↔
        extractionCrashes root = false := by
  refine ⟨rfl, ?_⟩
  intro root
  rw [parse_paper_details]
  rw [mapM_ok_iff parse_article]
  constructor
  · intro hall
    rw [extractionCrashes]
    rw [List.any_eq_false]
    intro art hart
    rw [Bool.not_eq_true, List.any_eq_false]
    intro a ha
    have := (parse_article_ok_iff art).mp (hall art hart) a ha
    simp [this]
  · intro hcr art hart
    rw [parse_article_ok_iff art]
    intro a ha
    rw [extractionCrashes, List.any_eq_false] at hcr
    have h2 := hcr art hart
    rw [Bool.not_eq_true, List.any_eq_false] at h2
    have h3 := h2 a ha
    simpa using h3

/-- C4 witness: a document with no articles is extracted without error. -/
theorem c4_error_conditions_witness :
    ∃ recs, parse_paper_details (some (Xml.elem "PubmedArticleSet" none [])) =
      Except.ok recs :=
  (c4_error_conditions.2 (Xml.elem "PubmedArticleSet" none [])).mpr rfl

/-- C5 counterexample: an article with no `PMID` descendant produces a record
whose `PubMedID` key holds Python `None`, which is neither an empty string
nor one of the `"Unknown"`/`"Not Available"` sentinels; the key itself is
still present. -/
theorem c5_counterexample :
    parse_paper_details (some (Xml.elem "PubmedArticleSet" none
        [Xml.elem "PubmedArticle" none [Xml.elem "ArticleTitle" (some "T") []]])) =
      Except.ok [[("PubMedID", none), ("Title", some "T"),
        ("Publication Date", some "Unknown"), ("Authors", some ""),
        ("Non-academic Authors", some ""), ("Company Affiliations", some ""),
        ("Email", some "Not Available")]] ∧
    List.lookup "PubMedID"
      ([("PubMedID", none), ("Title", some "T"),
        ("Publication Date", some "Unknown"), ("Authors", some ""),
        ("Non-academic Authors", some ""), ("Company Affiliations", some ""),
        ("Email", some "Not Available")] : Record) = some none :=
  ⟨rfl, rfl⟩

/-- C5 amended: every record has exactly the fixed key set in the fixed
insertion order; the date, author, affiliation and email fields always hold
strings (empty strings or sentinels when nothing was found), while the
identifier and title fields hold either a string or Python `None` when the
node is absent; no key is ever omitted. -/
theorem c5_fixed_key_set (article : Xml) (rec : Record)
    (h : parse_article article = Except.ok rec) :
    rec.map Prod.fst = fixedKeys ∧
    (∃ s, rec.lookup "Publication Date" = some (some s)) ∧
    (∃ s, rec.lookup "Authors" = some (some s)) ∧
    (∃ s, rec.lookup "Non-academic Authors" = some (some s)) ∧
    (∃ s, rec.lookup "Company Affiliations" = some (some s)) ∧
    (∃ s, rec.lookup "Email" = some (some s)) := by
  obtain ⟨acc, _, hrec⟩ := parse_article_ok_shape article rec h
  subst hrec
  exact ⟨rfl, ⟨_, rfl⟩, ⟨_, rfl⟩, ⟨_, rfl⟩, ⟨_, rfl⟩, ⟨_, rfl⟩⟩

/-- C5 witness: the fixed key set at a concrete article. -/
theorem c5_fixed_key_set_witness :
    ([("PubMedID", (none : Option String)), ("Title", none),
      ("Publication Date", some "Unknown"), ("Authors", some ""),
      ("Non-academic Authors", some ""), ("Company Affiliations", some ""),
      ("Email", some "Not Available")] : Record).map Prod.fst = fixedKeys :=
  (c5_fixed_key_set (Xml.elem "PubmedArticle" none [])
    [("PubMedID", none), ("Title", none),
     ("Publication Date", some "Unknown"), ("Authors", some ""),
     ("Non-academic Authors", some ""), ("Company Affiliations", some ""),
     ("Email", some "Not Available")] rfl).1

/-- C6: a successful record aggregates the full author list joined by
`", "`, the non-academic names joined by `", "`, the matched affiliation
texts joined by `"; "`, and the first collected email in author order (or
the `"Not Available"` sentinel when none was collected). -/
theorem c6_aggregated_fields (article : Xml) (rec : Record)
    (h : parse_article article = Except.ok rec) :
    rec.lookup "Authors" =
      some (some (String.intercalate ", " ((authorNodes article).map authorFullName))) ∧
    rec.lookup "Non-academic Authors" =
      some (some (String.intercalate ", " (specNonAcademicL (authorNodes article)))) ∧
    rec.lookup "Company Affiliations" =
      some (some (String.intercalate "; " (specCompanyAffsL (authorNodes article)))) ∧
    rec.lookup "Email" = some (some
      (match specEmailsL (authorNodes article) with
        | [] => "Not Available"
        | e :: _ => e)) := by
  obtain ⟨acc, hfold, hrec⟩ := parse_article_ok_shape article rec h
  obtain ⟨hA, hN, hC, hE⟩ := foldAuthors_ok _ _ _ hfold
  simp only [List.nil_append] at hA hN hC hE
  subst hrec
  refine ⟨?_, ?_, ?_, ?_⟩
  · simp [List.lookup, hA, authorNodes]
  · simp [List.lookup, hN, authorNodes]
  · simp [List.lookup, hC, authorNodes]
  · simp [List.lookup, hE, authorNodes]

/-- A two-author article: an academic author with an email in their
affiliation, then a biotech author. -/
def twoAuthorArticle : Xml :=
  Xml.elem "PubmedArticle" none
    [Xml.elem "Author" none
      [Xml.elem "LastName" (some "Roe") [],
       Xml.elem "ForeName" (some "Rick") [],
       Xml.elem "AffiliationInfo" none
         [Xml.elem "Affiliation" (some "State University, rick@uni.edu") []]],
     Xml.elem "Author" none
      [Xml.elem "LastName" (some "Doe") [],
       Xml.elem "ForeName" (some "Jane") [],
       Xml.elem "AffiliationInfo" none
         [Xml.elem "Affiliation" (some "Acme Biotech Inc") []]]]

/-- C6 witness: on the two-author article the joined fields and the first
collected email come out as the claim states. -/
theorem c6_aggregated_fields_witness :
    (parse_article twoAuthorArticle = Except.ok
      [("PubMedID", none), ("Title", none),
       ("Publication Date", some "Unknown"),
       ("Authors", some "Rick Roe, Jane Doe"),
       ("Non-academic Authors", some "Jane Doe"),
       ("Company Affiliations", some "Acme Biotech Inc"),
       ("Email", some "rick@uni.edu")]) ∧
    List.lookup "Email"
      ([("PubMedID", none), ("Title", none),
        ("Publication Date", some "Unknown"),
        ("Authors", some "Rick Roe, Jane Doe"),
        ("Non-academic Authors", some "Jane Doe"),
        ("Company Affiliations", some "Acme Biotech Inc"),
        ("Email", some "rick@uni.edu")] : Record) =
      some (some (match specEmailsL (authorNodes twoAuthorArticle) with
        | [] => "Not Available"
        | e :: _ => e)) :=
  ⟨rfl, (c6_aggregated_fields twoAuthorArticle _ rfl).2.2.2⟩

/-! ## Round-trip lemmas for the delimited-text writer and reader -/

theorem mk_toList (s : String) : String.mk s.toList = s := rfl

/-- Scanning clean characters (no delimiter, quote or line-end) just moves
them into the accumulator. -/
theorem parseFieldGo_unquoted_clean : ∀ (cs acc rest : List Char),
    (∀ c ∈ cs, c ≠ ',' ∧ c ≠ '"' ∧ c ≠ '\r' ∧ c ≠ '\n') →
    parseFieldGo .unquoted acc (cs ++ rest) =
      parseFieldGo .unquoted (acc ++ cs) rest := by
  intro cs
  induction cs with
  | nil =>
    intro acc rest _
    simp
  | cons c cs' ih =>
    intro acc rest h
    obtain ⟨h1, _, h3, h4⟩ := h c (List.mem_cons_self c cs')
    rw [List.cons_append, parseFieldGo, if_neg h1, if_neg h3, if_neg h4]
    rw [ih (acc ++ [c]) rest (fun d hd => h d (List.mem_cons_of_mem c hd))]
    congr 1
    simp

/-- Scanning the escaped form of a quoted field consumes it up to and
including the closing quote. -/
theorem parseFieldGo_quoted_escape : ∀ (cs acc rest : List Char),
    parseFieldGo .quoted acc (escapeQuotes cs ++ ('"' :: rest)) =
      parseFieldGo .quoteInQuoted (acc ++ cs) rest := by
  intro cs
  induction cs with
  | nil =>
    intro acc rest
    rw [escapeQuotes, List.nil_append, parseFieldGo, if_pos rfl]
    simp
  | cons c cs' ih =>
    intro acc rest
    by_cases hc : c = '"'
    · subst hc
      rw [escapeQuotes, if_pos rfl, List.cons_append, List.cons_append,
        parseFieldGo, if_pos rfl, parseFieldGo, if_pos rfl]
      rw [ih (acc ++ ['"']) rest]
      congr 1
      simp
    · rw [escapeQuotes, if_neg hc, List.cons_append, parseFieldGo, if_neg hc]
      rw [ih (acc ++ [c]) rest]
      congr 1
      simp

/-- Entering the scanner on input that does not open with a quote starts an
unquoted field. -/
theorem parseField_enter_unquoted (l : List Char) (hl : l ≠ [])
    (hh : ∀ r2, l ≠ '"' :: r2) :
    parseField l = parseFieldGo .unquoted [] l := by
  cases l with
  | nil => exact absurd rfl hl
  | cons c rest =>
    rw [parseField]
    exact if_neg (fun h => hh rest (by rw [h]))

theorem csvNeedsQuote_false_clean (f : String) (hq : csvNeedsQuote f = false) :
    ∀ c ∈ f.toList, c ≠ ',' ∧ c ≠ '"' ∧ c ≠ '\r' ∧ c ≠ '\n' := by
  intro c hc
  rw [csvNeedsQuote, List.any_eq_false] at hq
  have := hq c hc
  simp at this
  exact ⟨this.1.1.1, this.1.1.2, this.1.2, this.2⟩

/-- Reading a serialized field ended by a delimiter. -/
theorem parseField_comma (f : String) (r : List Char) :
    parseField (fieldChars f ++ ',' :: r) = (f, r, true) := by
  by_cases hq : csvNeedsQuote f
  · rw [fieldChars, if_pos hq, List.cons_append, parseField, if_pos rfl,
      List.append_assoc]
    rw [show (['"'] ++ (',' :: r) : List Char) = '"' :: ',' :: r from rfl]
    rw [parseFieldGo_quoted_escape f.toList [] (',' :: r)]
    rw [parseFieldGo, if_neg (by decide), if_pos rfl]
    simp [mk_toList]
  · have hclean := csvNeedsQuote_false_clean f (by simpa using hq)
    rw [fieldChars, if_neg hq]
    rw [parseField_enter_unquoted (f.toList ++ ',' :: r) (by simp) ?hh]
    case hh =>
      intro r2 h
      cases htl : f.toList with
      | nil =>
        rw [htl, List.nil_append] at h
        simp at h
      | cons c cs =>
        rw [htl, List.cons_append] at h
        have : c = '"' := (List.cons.injEq _ _ _ _).mp h |>.1
        exact (hclean c (htl ▸ List.mem_cons_self c cs)).2.1 this
    rw [parseFieldGo_unquoted_clean f.toList [] (',' :: r) hclean]
    rw [List.nil_append, parseFieldGo, if_pos rfl]
    simp [mk_toList]

/-- Reading a serialized field ended by the CR LF row terminator. -/
theorem parseField_crlf (f : String) (r : List Char) :
    parseField (fieldChars f ++ '\r' :: '\n' :: r) = (f, r, false) := by
  by_cases hq : csvNeedsQuote f
  · rw [fieldChars, if_pos hq, List.cons_append, parseField, if_pos rfl,
      List.append_assoc]
    rw [show (['"'] ++ ('\r' :: '\n' :: r) : List Char) = '"' :: '\r' :: '\n' :: r from rfl]
    rw [parseFieldGo_quoted_escape f.toList [] ('\r' :: '\n' :: r)]
    rw [parseFieldGo, if_neg (by decide), if_neg (by decide), if_pos rfl]
    rw [dropLf, if_pos rfl]
    simp [mk_toList]
  · have hclean := csvNeedsQuote_false_clean f (by simpa using hq)
    rw [fieldChars, if_neg hq]
    rw [parseField_enter_unquoted (f.toList ++ '\r' :: '\n' :: r) (by simp) ?hh]
    case hh =>
      intro r2 h
      cases htl : f.toList with
      | nil =>
        rw [htl, List.nil_append] at h
        simp at h
      | cons c cs =>
        rw [htl, List.cons_append] at h
        have : c = '"' := (List.cons.injEq _ _ _ _).mp h |>.1
        exact (hclean c (htl ▸ List.mem_cons_self c cs)).2.1 this
    rw [parseFieldGo_unquoted_clean f.toList [] ('\r' :: '\n' :: r) hclean]
    rw [List.nil_append, parseFieldGo, if_neg (by decide), if_pos rfl]
    rw [dropLf, if_pos rfl]
    simp [mk_toList]

theorem rowBodyChars_length : ∀ fs : List String,
    fs.length ≤ (rowBodyChars fs).length + 1 := by
  intro fs
  induction fs with
  | nil => simp
  | cons f fs' ih =>
    cases fs' with
    | nil => simp [rowBodyChars]
    | cons f2 fs'' =>
      rw [rowBodyChars]
      simp only [List.length_append, List.length_cons]
      simp only [List.length_cons] at ih
      omega

/-- Reading a serialized row yields its fields and leaves the rest. -/
theorem parseRowGo_row : ∀ (fs : List String) (fuel : Nat) (rest : List Char),
    fs ≠ [] → fs.length ≤ fuel →
    parseRowGo fuel (rowBodyChars fs ++ '\r' :: '\n' :: rest) = (fs, rest) := by
  intro fs
  induction fs with
  | nil => intro fuel rest h _; exact absurd rfl h
  | cons f fs' ih =>
    intro fuel rest _ hfuel
    cases fs' with
    | nil =>
      cases fuel with
      | zero => simp at hfuel
      | succ n =>
        rw [rowBodyChars, parseRowGo, parseField_crlf f rest]
    | cons f2 fs'' =>
      cases fuel with
      | zero => simp at hfuel
      | succ n =>
        rw [rowBodyChars, List.append_assoc]
        rw [show ((',' :: rowBodyChars (f2 :: fs'')) ++ '\r' :: '\n' :: rest : List Char) =
          ',' :: (rowBodyChars (f2 :: fs'') ++ '\r' :: '\n' :: rest) from rfl]
        rw [parseRowGo, parseField_comma f _]
        dsimp only
        rw [ih n rest (by simp) (by simp at hfuel ⊢; omega)]

theorem parseRow_row (fs : List String) (rest : List Char) (hne : fs ≠ []) :
    parseRow (rowChars fs ++ rest) = (fs, rest) := by
  rw [parseRow, rowChars, List.append_assoc]
  rw [show ((['\r', '\n'] ++ rest : List Char)) = '\r' :: '\n' :: rest from rfl]
  apply parseRowGo_row fs _ rest hne
  have h1 := rowBodyChars_length fs
  simp only [List.length_append, List.length_cons]
  omega

theorem rowChars_ne_nil (fs : List String) : rowChars fs ≠ [] := by
  rw [rowChars]
  simp

theorem rowsChars_length : ∀ rows : List (List String),
    rows.length ≤ (rowsChars rows).length := by
  intro rows
  induction rows with
  | nil => simp [rowsChars]
  | cons r rs ih =>
    rw [rowsChars, rowChars]
    simp only [List.length_cons, List.length_append]
    omega

/-- Reading back a serialized sequence of rows recovers the rows. -/
theorem parseRowsGo_rows : ∀ (rows : List (List String)) (fuel : Nat),
    (∀ r ∈ rows, r ≠ []) → rows.length ≤ fuel →
    parseRowsGo fuel (rowsChars rows) = rows := by
  intro rows
  induction rows with
  | nil =>
    intro fuel _ _
    cases fuel with
    | zero => rfl
    | succ n =>
      rw [rowsChars]
      rfl
  | cons r rs ih =>
    intro fuel hne hfuel
    cases fuel with
    | zero => simp at hfuel
    | succ n =>
      rw [rowsChars, parseRowsGo]
      rw [if_neg (by simp [List.isEmpty_iff, List.append_eq_nil, rowChars_ne_nil r])]
      rw [parseRow_row r (rowsChars rs) (hne r (List.mem_cons_self r rs))]
      rw [ih n (fun x hx => hne x (List.mem_cons_of_mem r hx)) (by simp at hfuel; omega)]

/-- Reading back a whole serialized file recovers all rows. -/
theorem csvParse_rowsChars (rows : List (List String))
    (h : ∀ r ∈ rows, r ≠ []) :
    csvParse (String.mk (rowsChars rows)) = rows := by
  rw [csvParse]
  rw [show (String.mk (rowsChars rows)).toList = rowsChars rows from rfl]
  apply parseRowsGo_rows rows _ h
  have := rowsChars_length rows
  omega

theorem fixedKeys_nodup : fixedKeys.Nodup := by decide

/-- Looking up each of a record's own (duplicate-free) keys in order yields
its values in order. -/
theorem lookup_map_values : ∀ (r : Record), (r.map Prod.fst).Nodup →
    (r.map Prod.fst).map (fun k => ((r.lookup k).getD none).getD "") =
      r.map (fun kv => kv.2.getD "") := by
  intro r
  induction r with
  | nil => intro _; rfl
  | cons kv r' ih =>
    intro hnd
    obtain ⟨hmem, hnd'⟩ := List.nodup_cons.mp hnd
    rw [List.map_cons, List.map_cons, List.map_cons]
    congr 1
    · simp [List.lookup]
    · have hcong : ∀ k ∈ r'.map Prod.fst,
          ((List.lookup k (kv :: r')).getD none).getD "" =
            ((List.lookup k r').getD none).getD "" := by
        intro k hkm
        have hne : (k == kv.1) = false := by
          simp only [beq_eq_false_iff_ne, ne_eq]
          exact fun h => hmem (h ▸ hkm)
        rw [List.lookup, hne]
      rw [List.map_congr_left hcong]
      exact ih hnd'

/-- A record whose keys are exactly the fieldnames serializes to its values
in key order, with Python `None` written as the empty string. -/
theorem dictWriterRow_of_keys (r : Record) (ks : List String)
    (hk : r.map Prod.fst = ks) (hnd : ks.Nodup) :
    dictWriterRow ks r = Except.ok (r.map (fun kv => kv.2.getD "")) := by
  rw [dictWriterRow]
  have hall : r.all (fun kv => ks.contains kv.1) = true := by
    rw [List.all_eq_true]
    intro kv hkv
    have hm : kv.1 ∈ ks := hk ▸ List.mem_map_of_mem Prod.fst hkv
    simpa using hm
  rw [if_pos hall]
  subst hk
  rw [lookup_map_values r hnd]

/-- The rows written for records with the fixed keys. -/
theorem writtenRows_eq (records : List Record)
    (h : ∀ r ∈ records, r.map Prod.fst = fixedKeys) :
    writtenRows fixedKeys records =
      rowsChars (records.map (fun r => r.map (fun kv => kv.2.getD ""))) := by
  induction records with
  | nil => rfl
  | cons r rs ih =>
    rw [writtenRows,
      dictWriterRow_of_keys r fixedKeys (h r (List.mem_cons_self r rs)) fixedKeys_nodup]
    rw [List.map_cons, rowsChars]
    rw [ih (fun x hx => h x (List.mem_cons_of_mem r hx))]

/-- A non-empty record sequence always leaves the fixed-keys writer's file
written with the header plus the emitted rows. -/
theorem save_to_csv_file_nonempty (records : List Record) (filename : String)
    (h : records ≠ []) :
    (save_to_csv records filename).file =
      some (filename, String.mk (rowChars fixedKeys ++ writtenRows fixedKeys records)) := by
  rw [save_to_csv]
  have hemp : records.isEmpty = false := by simp [List.isEmpty_iff, h]
  rw [hemp]
  by_cases hok : rowsOk fixedKeys records
  · rw [if_neg (by simp), if_pos hok]
  · rw [if_neg (by simp), if_neg hok]

/-! ## Claims C7 - C10 -/

/-- C7: on the empty record sequence both writer variants touch no file and
print exactly "No data to save."; on every non-empty sequence both write a
file under the given name. -/
theorem c7_empty_no_write (records : List Record) (filename : String) :
    (records = [] →
      save_to_csv records filename = ⟨none, ["No data to save."], true⟩ ∧
      cli_save_to_csv records filename = ⟨none, ["No data to save."], true⟩) ∧
    (records ≠ [] →
      (∃ c, (save_to_csv records filename).file = some (filename, c)) ∧
      (∃ c, (cli_save_to_csv records filename).file = some (filename, c))) := by
  constructor
  · rintro rfl
    exact ⟨rfl, rfl⟩
  · intro hne
    have hemp : records.isEmpty = false := by simp [List.isEmpty_iff, hne]
    refine ⟨⟨_, save_to_csv_file_nonempty records filename hne⟩, ?_⟩
    rw [cli_save_to_csv, hemp]
    by_cases hok : rowsOk ((records.headD []).map Prod.fst) records
    · rw [if_neg (by simp), if_pos hok]
      exact ⟨_, rfl⟩
    · rw [if_neg (by simp), if_neg hok]
      exact ⟨_, rfl⟩

/-- C7 witness: concrete empty and singleton runs of the writers. -/
theorem c7_empty_no_write_witness :
    (save_to_csv [] "results.csv" = ⟨none, ["No data to save."], true⟩ ∧
     cli_save_to_csv [] "results.csv" = ⟨none, ["No data to save."], true⟩) ∧
    (∃ c, (save_to_csv [[("PubMedID", some "1")]] "results.csv").file =
      some ("results.csv", c)) :=
  ⟨(c7_empty_no_write [] "results.csv").1 rfl,
   ((c7_empty_no_write [[("PubMedID", some "1")]] "results.csv").2 (by simp)).1⟩

/-- C8: writing any non-empty sequence of fixed-key records and re-reading
the file with the standard delimited-text reader yields the header row plus
exactly one data row per record, each data row holding the record's values
byte-for-byte (Python `None` values are serialized as the empty string). -/
theorem c8_roundtrip (records : List Record) (filename : String)
    (hne : records ≠ [])
    (hkeys : ∀ r ∈ records, r.map Prod.fst = fixedKeys) :
    ∃ content : String,
      (save_to_csv records filename).file = some (filename, content) ∧
      csvParse content =
        fixedKeys :: records.map (fun r => r.map (fun kv => kv.2.getD "")) ∧
      (csvParse content).length = records.length + 1 := by
  have hparse : csvParse (String.mk (rowChars fixedKeys ++ writtenRows fixedKeys records)) =
      fixedKeys :: records.map (fun r => r.map (fun kv => kv.2.getD "")) := by
    rw [writtenRows_eq records hkeys]
    rw [show rowChars fixedKeys ++
        rowsChars (records.map (fun r => r.map (fun kv => kv.2.getD ""))) =
        rowsChars (fixedKeys :: records.map (fun r => r.map (fun kv => kv.2.getD "")))
      from rfl]
    apply csvParse_rowsChars
    intro row hrow
    rcases List.mem_cons.mp hrow with rfl | hrow
    · simp [fixedKeys]
    · obtain ⟨r, hr, rfl⟩ := List.mem_map.mp hrow
      have hk := hkeys r hr
      intro habs
      rw [List.map_eq_nil_iff] at habs
      subst habs
      simp [fixedKeys] at hk
  exact ⟨_, save_to_csv_file_nonempty records filename hne, hparse,
    by rw [hparse]; simp⟩

/-- The concrete record of the C8 witness. -/
def sampleRecord : Record :=
  [("PubMedID", some "1"), ("Title", some "T, with comma"),
   ("Publication Date", some "2020--"), ("Authors", some "Rick Roe"),
   ("Non-academic Authors", some ""), ("Company Affiliations", some ""),
   ("Email", some "Not Available")]

/-- C8 witness: a concrete one-record round trip. -/
theorem c8_roundtrip_witness :
    ∃ content : String,
      (save_to_csv [sampleRecord] "results.csv").file =
        some ("results.csv", content) ∧
      csvParse content =
        fixedKeys :: [sampleRecord].map (fun r => r.map (fun kv => kv.2.getD "")) ∧
      (csvParse content).length = [sampleRecord].length + 1 :=
  c8_roundtrip [sampleRecord] "results.csv" (by simp) (by decide)

/-- C9: whenever the identifier search returns zero identifiers, the pipeline
issues no fetch request and writes no file, prints a message containing
"No papers found", and exits normally. -/
theorem c9_empty_search (query filename : String) (number : Nat)
    (fetchText : Option String) (fetchParsed : Option Xml) :
    (∀ ids, Event.fetchRequest ids ∉
      (main_run query filename number (some []) fetchText fetchParsed).1) ∧
    (∀ fn c, Event.fileWrite fn c ∉
      (main_run query filename number (some []) fetchText fetchParsed).1) ∧
    (∃ m, Event.print m ∈
        (main_run query filename number (some []) fetchText fetchParsed).1 ∧
      strContains m "No papers found" = true) ∧
    (main_run query filename number (some []) fetchText fetchParsed).2 = true := by
  have hrun : main_run query filename number (some []) fetchText fetchParsed =
      ([Event.print ("Fetching papers for query: " ++ query),
        Event.searchRequest query number,
        Event.print "No papers found for the query."], true) := by
    rw [main_run]
    rfl
  rw [hrun]
  refine ⟨?_, ?_, ⟨"No papers found for the query.", by simp, by rfl⟩, rfl⟩
  · intro ids
    simp
  · intro fn c
    simp

/-- C10: on any non-empty sequence of records carrying exactly the fixed
keys in order, the two writer variants behave identically, in particular
they write byte-identical file contents for the same filename. -/
theorem c10_writer_equivalence (records : List Record) (filename : String)
    (hne : records ≠ [])
    (hkeys : ∀ r ∈ records, r.map Prod.fst = fixedKeys) :
    cli_save_to_csv records filename = save_to_csv records filename := by
  cases records with
  | nil => exact absurd rfl hne
  | cons r rs =>
    have hk : r.map Prod.fst = fixedKeys := hkeys r (List.mem_cons_self r rs)
    rw [cli_save_to_csv, save_to_csv]
    simp only [List.headD_cons, hk]

/-- C10 witness: the two writers agree on a concrete record. -/
theorem c10_writer_equivalence_witness :
    cli_save_to_csv [[("PubMedID", some "1"), ("Title", some "T"),
      ("Publication Date", some "2020--"), ("Authors", some "Rick Roe"),
      ("Non-academic Authors", some ""), ("Company Affiliations", some ""),
      ("Email", some "rick@uni.edu")]] "out.csv" =
    save_to_csv [[("PubMedID", some "1"), ("Title", some "T"),
      ("Publication Date", some "2020--"), ("Authors", some "Rick Roe"),
      ("Non-academic Authors", some ""), ("Company Affiliations", some ""),
      ("Email", some "rick@uni.edu")]] "out.csv" :=
  c10_writer_equivalence _ "out.csv" (by simp) (by decide)
